import Mathlib

/-!
Space invaders: the per-frame simulation of `main.go`.

A shallow embedding of `Game.Update`, `Game.fireMissile`, `Game.restartGame`,
the projectile loop of `Game.drawStars`, `Game.Surf` and the state effect of
`Game.Draw`, followed by the properties of these functions.

Number model.

* Go `int` is 64 bits.  The `int` operations of the source on state fields
  (`speed * 5`, `speed + 1`, `score += 1`) wrap to two's complement (`wrap64`).
  `health` (a `byte` that only ever holds 100 or 0) is `Nat`.
* Coordinates are `float32` in the source and hold integers: every coordinate the
  program stores comes from an integer constant, an `int` conversion, or the sum
  or difference of two such values.  A coordinate is an `Int`.  Where the source
  converts an `int` field to `float32` and adds or subtracts it (the moves of
  the player by `speed` and `speed * 5`, the move of a projectile by
  `speed + 1`, the edge guards with the half-extents, the touch distance), the
  conversion and the sum are rounded as binary32 rounds them (`f32`).  The
  advance of an alien by the constant 1 and the differences inside the two
  distance tests of `Surf` are the exact integer operations, which is what
  binary32 computes on coordinates of magnitude below `2^24`.  Overflow to
  infinity (magnitudes from `2^128`), NaN and non-integer coordinates are not
  modelled.
* `fade` takes fractional values, so it is a binary32 number, modelled exactly:
  an `F32` holds the value as an integer count of `2^-149` (every finite
  binary32 number is such a multiple), and `F32.sub` rounds to nearest, ties to
  even, at 24 significant bits.
* `rand.IntN n` is `r % n` for an arbitrary natural `r` supplied by the caller;
  `ebiten.Tick()` is a natural number supplied by the caller.

Rendering, audio and the two star layers carry no behaviour that is stated
below and are left out of the state.
-/

namespace SpaceInvaders

/-! ## Machine arithmetic -/

/-- Go `int` arithmetic (64 bits): an exact integer result wrapped to two's
complement. -/
def wrap64 (x : Int) : Int := (x + 2 ^ 63) % 2 ^ 64 - 2 ^ 63

/-- Number of halvings that bring `n` below `2^24`; the first argument bounds the
search (finite binary32 magnitudes are below `2^277` in units of `2^-149`, and
below `2^128` as integers, so 256 is always enough). -/
def shiftTo24 : Nat → Nat → Nat
  | 0, _ => 0
  | f + 1, n => if n < 2 ^ 24 then 0 else shiftTo24 f (n / 2) + 1

/-- Round the non-negative rational `num / den` to the nearest multiple of `2^s`,
ties to even, where `s` is the shift that leaves 24 significant bits. -/
def roundUnits (num den : Nat) : Nat :=
  let s := shiftTo24 256 (num / den)
  let d := den * 2 ^ s
  let q := num / d
  let r := num % d
  (if 2 * r < d then q else if d < 2 * r then q + 1 else if q % 2 = 0 then q else q + 1) * 2 ^ s

/-- Rounding of an exact integer result to binary32: to the nearest integer with
24 significant bits, ties to even.  It is the conversion `float32(n)` of an
`int`, and the rounding step of a `float32` sum or difference of integer-valued
operands.  The same function rounds a count of `2^-149`, since rounding to 24
significant bits does not depend on the unit. -/
def f32 (k : Int) : Int :=
  if 0 ≤ k then (roundUnits k.natAbs 1 : Int) else -(roundUnits k.natAbs 1 : Int)

/-- A finite binary32 number, stored as the integer `units` with value
`units * 2^-149`. -/
structure F32 where
  units : Int
deriving DecidableEq, Repr

/-- Rounding of an exact result (in units of `2^-149`) to binary32. -/
def F32.round (k : Int) : F32 := ⟨f32 k⟩

/-- Conversion of the decimal constant `num / den` to binary32. -/
def F32.ofRatio (num den : Nat) : F32 := ⟨roundUnits (num * 2 ^ 149) den⟩

/-- The binary32 subtraction. -/
def F32.sub (a b : F32) : F32 := F32.round (a.units - b.units)

/-- The constant `1.0`. -/
def F32.one : F32 := F32.ofRatio 1 1

/-- The constant `0.05` of `fade -= 0.05`, converted to binary32. -/
def fadeSpeed : F32 := F32.ofRatio 5 100

/-! ## Data model -/

/-- The `Stars` struct, also used for projectiles. -/
structure Stars where
  X : Int
  Y : Int
deriving DecidableEq, Repr

/-- The `Player` struct. -/
structure Player where
  X : Int
  Y : Int
  speed : Int
  scale : Int
  planeSizeX : Int
  planeSizeY : Int
  playerScale : Int
  score : Int
  isFiring : Bool
deriving DecidableEq, Repr

/-- The `Alien` struct. -/
structure Alien where
  X : Int
  Y : Int
  color : String
  size : Int
  speed : Int
  health : Nat
  dying : Bool
  fade : F32
deriving DecidableEq, Repr

/-- The `Game` struct without the star layers, audio players and cached image. -/
structure Game where
  isStarted : Bool
  restart : Bool
  player : Player
  aliens : List Alien
  missile : List Stars
deriving DecidableEq, Repr

def width : Int := 680
def height : Int := 480
def maxAliensCount : Nat := 5

/-! ## `Update` -/

/-- What the host reports in one call of `Update`: the held direction keys
(W/Up, S/Down, A/Left, D/Right), the positions of the just-pressed touches in
order, and whether Space was just pressed. -/
structure Input where
  up : Bool
  down : Bool
  left : Bool
  right : Bool
  touches : List (Int × Int)
  space : Bool
deriving DecidableEq, Repr

/-- `Game.fireMissile`: append a projectile at the player's position. -/
def fireMissile (g : Game) : Game :=
  { g with missile := g.missile ++ [{ X := g.player.X, Y := g.player.Y }] }

/-- The block shared by the touch-on-plane branch and the Space branch:
set `isFiring`, fire, and start the game when it is not started. -/
def fireAndStart (g : Game) : Game :=
  let g1 := fireMissile { g with player := { g.player with isFiring := true } }
  if g1.isStarted then g1
  else { g1 with isStarted := true, restart := false, player := { g1.player with score := 0 } }

/-- One iteration of the loop over `JustPressedTouchIDs`; `t` is the touch
position `(tx, ty)`, two `int`s. -/
def touchStep (g : Game) (t : Int × Int) : Game :=
  if |f32 (f32 t.1 - g.player.X)| < 100 ∧ |f32 (f32 t.2 - g.player.Y)| < 100 then
    fireAndStart g
  else if t.1 < width / 2 ∧ f32 (g.player.X - f32 g.player.planeSizeX) > 0 then
    { g with player := { g.player with
        X := f32 (g.player.X - f32 (wrap64 (g.player.speed * 5))) } }
  else if t.1 ≥ width / 2 ∧ f32 (g.player.X + f32 g.player.planeSizeX) < width then
    { g with player := { g.player with
        X := f32 (g.player.X + f32 (wrap64 (g.player.speed * 5))) } }
  else g

/-- The part of `Update` after the four direction keys: touches, then Space. -/
def touchAndFire (g : Game) (inp : Input) : Game :=
  let g1 := inp.touches.foldl touchStep g
  if inp.space then fireAndStart g1 else g1

/-- `Game.Update`.  Each `return nil` of a direction guard ends the call with
the state reached so far.  `float32(n)` of an `int` field is `f32 n`, and every
`float32` sum or difference is rounded by `f32`. -/
def Update (g : Game) (inp : Input) : Game :=
  if inp.up = true ∧ f32 (g.player.Y - f32 g.player.planeSizeY) < 0 then g else
  let g1 := if inp.up then
    { g with player := { g.player with Y := f32 (g.player.Y - f32 g.player.speed) } } else g
  if inp.down = true ∧ f32 (g1.player.Y + f32 g1.player.planeSizeY) > height then g1 else
  let g2 := if inp.down then
    { g1 with player := { g1.player with Y := f32 (g1.player.Y + f32 g1.player.speed) } } else g1
  if inp.left = true ∧ f32 (g2.player.X - f32 g2.player.planeSizeX) < 0 then g2 else
  let g3 := if inp.left then
    { g2 with player := { g2.player with X := f32 (g2.player.X - f32 g2.player.speed) } } else g2
  if inp.right = true ∧ f32 (g3.player.X + f32 g3.player.planeSizeX) > width then g3 else
  let g4 := if inp.right then
    { g3 with player := { g3.player with X := f32 (g3.player.X + f32 g3.player.speed) } } else g3
  touchAndFire g4 inp

/-! ## The projectile loop of `drawStars` -/

/-- The loop `for i := 0; i < len(g.missile); i++` of `drawStars`: entry `i`
moves up by `step` (a `float32` subtraction) and is cut out when its `Y` is
negative; the index advances in both cases.  The first argument bounds the
number of iterations. -/
def missileLoop (step : Int) : Nat → Nat → List Stars → List Stars
  | 0, _, ms => ms
  | f + 1, i, ms =>
    match ms[i]? with
    | none => ms
    | some m =>
      let m1 : Stars := { m with Y := f32 (m.Y - step) }
      if m1.Y < 0 then missileLoop step f (i + 1) ((ms.set i m1).eraseIdx i)
      else missileLoop step f (i + 1) (ms.set i m1)

/-- The amount `float32(g.player.speed + 1)` by which a projectile moves. -/
def missileStep (g : Game) : Int := f32 (wrap64 (g.player.speed + 1))

/-- The projectiles left by the loop of `drawStars`. -/
def movedMissiles (g : Game) : List Stars :=
  missileLoop (missileStep g) g.missile.length 0 g.missile

/-- `Game.drawStars`, projectile part: the loop, then the cut to the last 10. -/
def drawStars (g : Game) : Game :=
  let ms := movedMissiles g
  { g with missile := if ms.length > 10 then ms.drop (ms.length - 10) else ms }

/-! ## `Surf` -/

/-- The alien literal of the spawn loop; fields not named there are zero. -/
def newAlien (x : Int) : Alien :=
  { X := x, Y := -50, color := "", size := 0, speed := 0,
    health := 100, dying := false, fade := F32.one }

/-- The spawn loop `for i := 0; i < spawnNumber && len(g.aliens) < maxAliensCount; i++`;
the first argument is `spawnNumber - i`.  Draw number `i + 1` of the random
source gives the horizontal spawn point. -/
def spawnLoop (rnd : Nat → Nat) : Nat → Nat → List Alien → List Alien
  | 0, _, as => as
  | n + 1, i, as =>
    if as.length < maxAliensCount then
      spawnLoop rnd n (i + 1) (as ++ [newAlien ((rnd (i + 1) : Int) % (width - 200) + 100)])
    else as

/-- The spawn block of `Surf`; draw 0 of the random source gives `spawnNumber`. -/
def spawnPhase (tick : Nat) (rnd : Nat → Nat) (as : List Alien) : List Alien :=
  if tick % 90 = 0 then spawnLoop rnd (rnd 0 % 2 + 1) 0 as else as

/-- `Game.alienSpeen`. -/
def alienSpeen : Int := 1

/-- The loop `for i := 0; i < len(g.aliens); i++` that moves the aliens down and
cuts out the one at index `i` when it left the screen; the index advances in
both cases.  The first argument bounds the number of iterations. -/
def advanceLoop : Nat → Nat → List Alien → List Alien
  | 0, _, as => as
  | f + 1, i, as =>
    match as[i]? with
    | none => as
    | some a =>
      let a1 : Alien := { a with Y := a.Y + alienSpeen }
      if a1.Y > height then advanceLoop f (i + 1) ((as.set i a1).eraseIdx i)
      else advanceLoop f (i + 1) (as.set i a1)

/-- The advance block of `Surf`. -/
def advancePhase (as : List Alien) : List Alien := advanceLoop as.length 0 as

/-- `Game.clearAliens`. -/
def clearAliens (g : Game) : Game := { g with aliens := [] }

/-- `Game.restartGame`. -/
def restartGame (g : Game) : Game := clearAliens { g with isStarted := false }

/-- The player-vs-alien test of `Surf`. -/
def isCollision (p : Player) (a : Alien) : Prop :=
  |p.Y - a.Y| < 10 ∧ ((p.X > a.X ∧ p.X - a.X < 50) ∨ (p.X < a.X ∧ a.X - p.X < 20))

instance (p : Player) (a : Alien) : Decidable (isCollision p a) := by
  unfold isCollision; infer_instance

/-- The loop of the player-vs-alien block; `len(g.aliens)` is read again at
every iteration.  The first argument bounds the number of iterations. -/
def collideLoop : Nat → Nat → Game → Game
  | 0, _, g => g
  | f + 1, i, g =>
    match g.aliens[i]? with
    | none => g
    | some a =>
      if isCollision g.player a then collideLoop f (i + 1) (restartGame { g with restart := true })
      else collideLoop f (i + 1) g

/-- The player-vs-alien block of `Surf`. -/
def collidePhase (g : Game) : Game :=
  if g.aliens.length > 0 then collideLoop g.aliens.length 0 g else g

/-- The bounding check of a projectile against an alien. -/
def inRange (m : Stars) (a : Alien) : Prop := |m.X - a.X| < 24 ∧ |m.Y - a.Y| < 24

instance (m : Stars) (a : Alien) : Decidable (inRange m a) := by
  unfold inRange; infer_instance

/-- The inner loop `for j := len(g.missile) - 1; j >= 0; j--` up to its `break`:
the index of the projectile that hits, if any.  The argument is `j + 1`. -/
def hitScan (a : Alien) (ms : List Stars) : Nat → Option Nat
  | 0 => none
  | j + 1 =>
    match ms[j]? with
    | none => hitScan a ms j
    | some m => if inRange m a ∧ a.dying = false then some j else hitScan a ms j

/-- The inner loop with its effect on the alien and on the projectile list. -/
def hitAlien (a : Alien) (ms : List Stars) : Alien × List Stars :=
  match hitScan a ms ms.length with
  | some j => ({ a with health := 0, dying := true, fade := F32.one }, ms.eraseIdx j)
  | none => (a, ms)

/-- The statement `fade -= 0.05` under `if g.aliens[i].dying`. -/
def fadeAlien (a : Alien) : Alien :=
  if a.dying then { a with fade := a.fade.sub fadeSpeed } else a

/-- The test that cuts a faded alien out of the list. -/
def faded (a : Alien) : Prop := a.dying = true ∧ a.fade.units ≤ 0

instance (a : Alien) : Decidable (faded a) := by
  unfold faded; infer_instance

/-- The body of the outer loop for index `i`. -/
def alienStep (i : Nat) (g : Game) : Game :=
  match g.aliens[i]? with
  | none => g
  | some a =>
    let a2 := fadeAlien (hitAlien a g.missile).1
    let ms := (hitAlien a g.missile).2
    if faded a2 then
      { g with aliens := (g.aliens.set i a2).eraseIdx i, missile := ms,
               player := { g.player with score := wrap64 (g.player.score + 1) } }
    else { g with aliens := g.aliens.set i a2, missile := ms }

/-- The outer loop `for i := len(g.aliens) - 1; i >= 0; i--`; the argument is `i + 1`. -/
def alienLoop : Nat → Game → Game
  | 0, g => g
  | i + 1, g => alienLoop i (alienStep i g)

/-- The projectile-vs-alien block of `Surf` with its guard. -/
def missilePass (g : Game) : Game :=
  if g.aliens.length > 0 ∧ g.missile.length > 0 then alienLoop g.aliens.length g else g

/-- `Game.Surf`. -/
def Surf (g : Game) (tick : Nat) (rnd : Nat → Nat) : Game :=
  let g1 := { g with aliens := advancePhase (spawnPhase tick rnd g.aliens) }
  missilePass (collidePhase g1)

/-- The state effect of `Game.Draw`: `drawStars`, then `Surf` when the game is started. -/
def Draw (g : Game) (tick : Nat) (rnd : Nat → Nat) : Game :=
  let g1 := drawStars g
  if g1.isStarted then Surf g1 tick rnd else g1

/-- The player as `main` configures it, placed at `(x, y)`. -/
def mkPlayer (x y : Int) : Player :=
  { X := x, Y := y, speed := 6, scale := 4, planeSizeX := 12, planeSizeY := 16,
    playerScale := 0, score := 0, isFiring := false }

/-- A live alien at `(x, y)`, as the spawn loop creates it. -/
def alienAt (x y : Int) : Alien := { newAlien x with Y := y }

/-! ## Predicates used in the statements -/

/-- The bounds the specification gives for the player:
`planeSizeX ≤ X ≤ width - planeSizeX` and `planeSizeY ≤ Y ≤ height - planeSizeY`. -/
def playerInBounds (p : Player) : Prop :=
  p.planeSizeX ≤ p.X ∧ p.X ≤ width - p.planeSizeX ∧
  p.planeSizeY ≤ p.Y ∧ p.Y ≤ height - p.planeSizeY

instance (p : Player) : Decidable (playerInBounds p) := by
  unfold playerInBounds; infer_instance

/-- The bounds the guards of `Update` maintain: one touch step (`5 * speed`)
beyond the specified bounds horizontally, one key step (`speed`) vertically. -/
def playerInReach (p : Player) : Prop :=
  p.planeSizeX - 5 * p.speed ≤ p.X ∧ p.X ≤ width - p.planeSizeX + 5 * p.speed ∧
  p.planeSizeY - p.speed ≤ p.Y ∧ p.Y ≤ height - p.planeSizeY + p.speed

instance (p : Player) : Decidable (playerInReach p) := by
  unfold playerInReach; infer_instance

/-- The configuration fields of the player (`speed` and the two half-extents) agree. -/
def sameConfig (p q : Player) : Prop :=
  q.speed = p.speed ∧ q.planeSizeX = p.planeSizeX ∧ q.planeSizeY = p.planeSizeY

/-- Input with nothing held, touched or pressed. -/
def noInput : Input :=
  { up := false, down := false, left := false, right := false, touches := [], space := false }

/-- A started game with the player of `main` at `(x, y)`. -/
def startedAt (x y : Int) (as : List Alien) (ms : List Stars) : Game :=
  { isStarted := true, restart := false, player := mkPlayer x y, aliens := as, missile := ms }

/-- A game that is not started, with the player of `main` at `(x, y)`. -/
def notStartedAt (x y : Int) : Game :=
  { isStarted := false, restart := false, player := mkPlayer x y, aliens := [], missile := [] }

/-- What the spawn loop puts into a new alien. -/
def freshAlien (a : Alien) : Prop :=
  a.Y = -50 ∧ a.health = 100 ∧ a.dying = false ∧ a.fade = F32.one ∧
    100 ≤ a.X ∧ a.X < width - 100

/-- An alien at `(x, y)` that was hit, with fade `f`. -/
def dyingAt (x y : Int) (f : F32) : Alien :=
  { alienAt x y with health := 0, dying := true, fade := f }

/-- The projectile loop of `drawStars` read as a recursion over the list: an
entry whose moved `Y` is negative is dropped, and the entry behind it, which the
loop index steps over, is kept as it is, neither moved nor tested; any other
entry is kept with its moved `Y`. -/
def sweepMissiles (step : Int) : List Stars → List Stars
  | [] => []
  | [m] => if f32 (m.Y - step) < 0 then [] else [{ m with Y := f32 (m.Y - step) }]
  | m :: b :: rest =>
    if f32 (m.Y - step) < 0 then b :: sweepMissiles step rest
    else { m with Y := f32 (m.Y - step) } :: sweepMissiles step (b :: rest)

/-- How an entry `r` left by the projectile loop relates to the entry `o` it
comes from: moved up by `step` and still on screen, or left as it was. -/
def movedFrom (step : Int) (r o : Stars) : Prop :=
  r = o ∨ (r = { o with Y := f32 (o.Y - step) } ∧ 0 ≤ r.Y)

/-- The state in which `Surf` enters its projectile-vs-alien block: after the
spawn block, the advance loop and the player-vs-alien block. -/
def beforeMissilePass (g : Game) (tick : Nat) (rnd : Nat → Nat) : Game :=
  collidePhase { g with aliens := advancePhase (spawnPhase tick rnd g.aliens) }

/-- The outer loop read as a recursion over the alien list: the aliens behind
the head are processed first (the loop runs from the last index down), then the
head meets the projectiles they left.  The result is every alien as the loop
body leaves it, before the removal test, and the projectiles left. -/
def passFrom : List Alien → List Stars → List Alien × List Stars
  | [], ms => ([], ms)
  | a :: rest, ms =>
    (fadeAlien (hitAlien a (passFrom rest ms).2).1 :: (passFrom rest ms).1,
      (hitAlien a (passFrom rest ms).2).2)

/-- Alien `p` is alien `a` after the body of the outer loop, run against some
projectile list. -/
def processedFrom (a p : Alien) : Prop := ∃ ms : List Stars, p = fadeAlien (hitAlien a ms).1

/-- The guard of the projectile-vs-alien block. -/
def passRuns (g : Game) : Prop := g.aliens.length > 0 ∧ g.missile.length > 0

instance (g : Game) : Decidable (passRuns g) := by
  unfold passRuns; infer_instance

/-- The three assignments made to an alien when a projectile hits it. -/
def struck (a : Alien) : Alien := { a with health := 0, dying := true, fade := F32.one }

/-- Alien `p` is alien `a` after the projectile-vs-alien block: same place, still
dying when it was dying, and with health 0 when it became dying. -/
def sameEnemy (a p : Alien) : Prop :=
  p.X = a.X ∧ p.Y = a.Y ∧ (a.dying = true → p.dying = true) ∧
    (a.dying = false → p.dying = true → p.health = 0)

/-- The dying flag changed from false to true between `a` and `p`. -/
def newlyDying (a p : Alien) : Bool := !a.dying && p.dying

/-- The fade of an alien after `n` executions of `fade -= 0.05`, starting from
the `1.0` set by the hit. -/
def fadeAfter : Nat → F32
  | 0 => F32.one
  | n + 1 => (fadeAfter n).sub fadeSpeed

/-- `n` successive frames (`Draw`) with ticks `t`, `t + 1`, ... -/
def frames (rnd : Nat → Nat) : Nat → Nat → Game → Game
  | 0, _, g => g
  | n + 1, t, g => frames rnd n (t + 1) (Draw g t rnd)

/-- A press of Space with nothing else held or touched. -/
def pressSpace : Input := { noInput with space := true }

/-- The death-timing scenario: a started game, the player of `main` at
`(300, 384)`, one alien at `(300, 50)`, and Space just pressed, which fires a
projectile from `(300, 384)`. -/
def deathScenario : Game := Update (startedAt 300 384 [alienAt 300 50] []) pressSpace

/-- The same scenario with a second projectile: after 19 frames (ticks 1 to 19)
Space is pressed again. -/
def deathScenarioSecondShot : Game := Update (frames (fun _ => 0) 19 1 deathScenario) pressSpace

/-- The configuration of the player is in the range in which the arithmetic of
`Update` is exact: `speed` and the two half-extents lie between 0 and 1000000
(the source has 6, 12 and 16). -/
def configInRange (p : Player) : Prop :=
  0 ≤ p.speed ∧ p.speed ≤ 1000000 ∧ 0 ≤ p.planeSizeX ∧ p.planeSizeX ≤ 1000000 ∧
    0 ≤ p.planeSizeY ∧ p.planeSizeY ≤ 1000000

instance (p : Player) : Decidable (configInRange p) := by
  unfold configInRange; infer_instance

/-- The score after `n` executions of `g.player.score += 1` on a Go `int`. -/
def bump : Nat → Int → Int
  | 0, s => s
  | n + 1, s => bump n (wrap64 (s + 1))

/-- The aliens of `ps` that the removal test of the outer loop leaves in the
list: those that are not both dying and with `fade ≤ 0`. -/
def surviving (ps : List Alien) : List Alien := ps.filter (fun p => !decide (faded p))

/-- The projectiles not yet consumed when the outer loop reaches an alien whose
successors in the list are `post`: those left after `post` was processed. -/
def pending (post : List Alien) (ms : List Stars) : List Stars := (passFrom post ms).2

/-! # Properties -/

set_option maxRecDepth 1000000

/-! ## Machine arithmetic on small values -/

theorem roundUnits_small (n : Nat) (h : n < 2 ^ 24) : roundUnits n 1 = n := by
  unfold roundUnits
  have hs : shiftTo24 256 n = 0 := by
    unfold shiftTo24
    rw [if_pos h]
  simp [hs, Nat.mod_one]

theorem f32_small (k : Int) (h1 : -16777216 < k) (h2 : k < 16777216) : f32 k = k := by
  unfold f32
  have hn : k.natAbs < 2 ^ 24 := by omega
  rw [roundUnits_small _ hn]
  split_ifs with h
  · omega
  · omega

theorem wrap64_small (x : Int) (h1 : -9223372036854775808 ≤ x)
    (h2 : x < 9223372036854775808) : wrap64 x = x := by
  unfold wrap64
  omega

/-! ## Lemmas on `Update` -/

theorem fireAndStart_position (g : Game) :
    (fireAndStart g).player.X = g.player.X ∧ (fireAndStart g).player.Y = g.player.Y ∧
    sameConfig g.player (fireAndStart g).player := by
  unfold fireAndStart fireMissile sameConfig
  by_cases h : g.isStarted = true <;> simp [h]

theorem touchStep_reach (g : Game) (t : Int × Int) (hc : configInRange g.player)
    (h : playerInReach g.player) :
    playerInReach (touchStep g t).player ∧ sameConfig g.player (touchStep g t).player := by
  unfold touchStep
  split_ifs with h1 h2 h3
  · obtain ⟨fx, fy, fs, fpx, fpy⟩ := fireAndStart_position g
    unfold playerInReach sameConfig at *
    rw [fx, fy, fs, fpx, fpy]; exact ⟨h, rfl, rfl, rfl⟩
  · unfold playerInReach configInRange sameConfig width at *
    simp (disch := omega) only [f32_small, wrap64_small] at h2 ⊢
    exact ⟨by omega, trivial, trivial, trivial⟩
  · unfold playerInReach configInRange sameConfig width at *
    simp (disch := omega) only [f32_small, wrap64_small] at h3 ⊢
    exact ⟨by omega, trivial, trivial, trivial⟩
  · exact ⟨h, rfl, rfl, rfl⟩

theorem configInRange_of_same (p q : Player) (hc : configInRange p) (hs : sameConfig p q) :
    configInRange q := by
  unfold configInRange sameConfig at *
  omega

theorem sameConfig_trans (p q r : Player) (h1 : sameConfig p q) (h2 : sameConfig q r) :
    sameConfig p r := by
  unfold sameConfig at *
  omega

theorem touches_reach (ts : List (Int × Int)) (g : Game) (hc : configInRange g.player)
    (h : playerInReach g.player) :
    playerInReach (ts.foldl touchStep g).player ∧
      sameConfig g.player (ts.foldl touchStep g).player := by
  induction ts generalizing g with
  | nil => exact ⟨h, rfl, rfl, rfl⟩
  | cons t ts ih =>
    obtain ⟨h1, c⟩ := touchStep_reach g t hc h
    obtain ⟨h2, d⟩ := ih (touchStep g t) (configInRange_of_same _ _ hc c) h1
    rw [List.foldl_cons]
    exact ⟨h2, sameConfig_trans _ _ _ c d⟩

theorem touchAndFire_reach (g : Game) (inp : Input) (hc : configInRange g.player)
    (h : playerInReach g.player) :
    playerInReach (touchAndFire g inp).player ∧
      sameConfig g.player (touchAndFire g inp).player := by
  obtain ⟨h1, c1, c2, c3⟩ := touches_reach inp.touches g hc h
  unfold touchAndFire
  by_cases hsp : inp.space = true
  · obtain ⟨fx, fy, fs, fpx, fpy⟩ := fireAndStart_position (inp.touches.foldl touchStep g)
    simp only [hsp, if_true]
    unfold playerInReach sameConfig at *
    rw [fx, fy, fs, fpx, fpy]
    exact ⟨h1, c1, c2, c3⟩
  · simp only [hsp]
    exact ⟨h1, c1, c2, c3⟩

theorem touchAndFire_reach_from (g0 g : Game) (inp : Input) (hs : sameConfig g0.player g.player)
    (hc : configInRange g0.player) (h : playerInReach g.player) :
    playerInReach (touchAndFire g inp).player ∧
      sameConfig g0.player (touchAndFire g inp).player := by
  obtain ⟨h1, d⟩ := touchAndFire_reach g inp (configInRange_of_same _ _ hc hs) h
  exact ⟨h1, sameConfig_trans _ _ _ hs d⟩

theorem update_reach (g : Game) (inp : Input) (hc : configInRange g.player)
    (h : playerInReach g.player) :
    playerInReach (Update g inp).player ∧ sameConfig g.player (Update g inp).player := by
  have hc0 := hc
  have h0 := h
  unfold playerInReach width height at h0
  unfold configInRange at hc0
  unfold Update width height
  cases inp.up <;> cases inp.down <;> cases inp.left <;> cases inp.right <;>
    simp only [Bool.false_eq_true, false_and, if_false, true_and, if_true] <;>
    (try simp (disch := omega) only [f32_small]) <;>
    (try split_ifs) <;>
    first
    | exact ⟨h, rfl, rfl, rfl⟩
    | (apply touchAndFire_reach_from _ _ _ _ hc
       · unfold playerInReach width height
         (try dsimp only)
         omega
       · exact ⟨rfl, rfl, rfl⟩)
    | (refine ⟨?_, rfl, rfl, rfl⟩
       unfold playerInReach width height
       (try dsimp only)
       omega)

theorem update_right_blocked (g : Game) (inp : Input) (hu : inp.up = false)
    (hd : inp.down = false) (hl : inp.left = false) (hr : inp.right = true)
    (hx : f32 (g.player.X + f32 g.player.planeSizeX) > width) : Update g inp = g := by
  unfold Update
  simp [hu, hd, hl, hr, hx]

theorem fireAndStart_effect (g0 g : Game) (hm : g.missile = g0.missile)
    (h1 : g.isStarted = g0.isStarted) (h2 : g.restart = g0.restart)
    (h3 : g.player.score = g0.player.score) :
    (fireAndStart g).missile
      = g0.missile ++ [{ X := (fireAndStart g).player.X, Y := (fireAndStart g).player.Y }] ∧
    (g0.isStarted = false → (fireAndStart g).isStarted = true ∧
      (fireAndStart g).restart = false ∧ (fireAndStart g).player.score = 0) ∧
    (g0.isStarted = true → (fireAndStart g).isStarted = true ∧
      (fireAndStart g).restart = g0.restart ∧
      (fireAndStart g).player.score = g0.player.score) := by
  obtain ⟨p1, p2, _⟩ := fireAndStart_position g
  rw [p1, p2, ← hm, ← h1, ← h2, ← h3]
  unfold fireAndStart fireMissile
  cases h : g.isStarted <;> simp [h]

/-- From a position inside the specified bounds no direction guard returns, and a
Space press without touches appends exactly one projectile at the player's
position after the moves; the game is started, with the restart flag cleared and
the score at 0, when it was not, and score and flags are kept when it was. -/
theorem update_fire_in_bounds (g : Game) (inp : Input) (hc : configInRange g.player)
    (hb : playerInBounds g.player) (ht : inp.touches = []) (hsp : inp.space = true) :
    (Update g inp).missile
      = g.missile ++ [{ X := (Update g inp).player.X, Y := (Update g inp).player.Y }] ∧
    (g.isStarted = false → (Update g inp).isStarted = true ∧
      (Update g inp).restart = false ∧ (Update g inp).player.score = 0) ∧
    (g.isStarted = true → (Update g inp).isStarted = true ∧
      (Update g inp).restart = g.restart ∧ (Update g inp).player.score = g.player.score) := by
  simp only [playerInBounds, configInRange, width, height] at hb hc
  unfold Update touchAndFire width height
  rw [ht, hsp]
  cases inp.up <;> cases inp.down <;> cases inp.left <;> cases inp.right <;>
    simp only [Bool.false_eq_true, false_and, if_false, true_and, if_true, List.foldl_nil] <;>
    (try simp (disch := omega) only [f32_small]) <;>
    (try split_ifs) <;>
    first
    | exact fireAndStart_effect g _ rfl rfl rfl rfl
    | (exfalso
       omega)

/-! ## Player bounds (C1) -/

/-- C1, as stated, fails: from `X = width - planeSizeX = 668`, inside the
specified bounds, a move-right request is accepted (the guard `X + planeSizeX > width`
tests the position before the move) and leaves `X = 674`, outside the bounds;
a touch on the right half from `X = 667` leaves `X = 697`. -/
theorem update_bounds_counterexample :
    playerInBounds (startedAt 668 384 [] []).player ∧
    (Update (startedAt 668 384 [] []) { noInput with right := true }).player.X = 674 ∧
    ¬ playerInBounds (Update (startedAt 668 384 [] []) { noInput with right := true }).player ∧
    playerInBounds (startedAt 667 384 [] []).player ∧
    (Update (startedAt 667 384 [] []) { noInput with touches := [(600, 100)] }).player.X = 697 := by
  decide

/-- C1 (amended): for a player whose `speed` and half-extents lie between 0 and
1000000 (the source has 6, 12, 16), `Update` preserves the bounds its guards
maintain, `planeSizeX - 5*speed ≤ X ≤ width - planeSizeX + 5*speed` and
`planeSizeY - speed ≤ Y ≤ height - planeSizeY + speed`, for every combination of
held keys, touches and fire input, and leaves `speed` and the half-extents
unchanged; a move-right request alone from `X + planeSizeX > width` leaves the
state unchanged. -/
theorem update_keeps_player_in_reach (g : Game) (inp : Input) (hc : configInRange g.player)
    (h : playerInReach g.player) :
    playerInReach (Update g inp).player ∧ sameConfig g.player (Update g inp).player ∧
    (inp.up = false → inp.down = false → inp.left = false → inp.right = true →
      g.player.X + g.player.planeSizeX > width → Update g inp = g) := by
  refine ⟨(update_reach g inp hc h).1, (update_reach g inp hc h).2, ?_⟩
  intro hu hd hl hr hx
  apply update_right_blocked g inp hu hd hl hr
  simp only [playerInReach, configInRange, width, height] at h hc hx ⊢
  simp (disch := omega) only [f32_small]
  exact hx

theorem update_keeps_player_in_reach_witness :
    configInRange (startedAt 668 384 [] []).player ∧
    playerInReach (startedAt 668 384 [] []).player ∧
    playerInReach (Update (startedAt 668 384 [] []) { noInput with right := true }).player ∧
    sameConfig (startedAt 668 384 [] []).player
      (Update (startedAt 668 384 [] []) { noInput with right := true }).player :=
  ⟨by decide, by decide,
    (update_keeps_player_in_reach (startedAt 668 384 [] []) { noInput with right := true }
      (by decide) (by decide)).1,
    (update_keeps_player_in_reach (startedAt 668 384 [] []) { noInput with right := true }
      (by decide) (by decide)).2.1⟩

/-! ## Fire and start (C7) -/

/-- C7, the code at the failing input: holding Up from `Y = 18` brings the player
to `Y = 12`; there, with Up still held, the guard `Y - planeSizeY < 0` returns
from `Update` before the Space branch, so a Space press appends no projectile
and does not start the game. -/
theorem update_fire_lost_at_edge :
    Update (notStartedAt 340 18) { noInput with up := true } = notStartedAt 340 12 ∧
    Update (notStartedAt 340 12) { noInput with up := true, space := true }
      = notStartedAt 340 12 ∧
    (Update (notStartedAt 340 12) { noInput with up := true, space := true }).missile = [] ∧
    (Update (notStartedAt 340 12) { noInput with up := true, space := true }).isStarted
      = false := by
  decide

/-! ## Spawn policy (C6) -/

theorem newAlien_fresh (r : Nat) : freshAlien (newAlien ((r : Int) % (width - 200) + 100)) := by
  unfold freshAlien newAlien width
  refine ⟨rfl, rfl, rfl, rfl, ?_, ?_⟩ <;> dsimp only <;> omega

theorem spawnLoop_spec (rnd : Nat → Nat) (n : Nat) : ∀ (i : Nat) (as : List Alien),
    ∃ new : List Alien, spawnLoop rnd n i as = as ++ new ∧
      new.length = min n (maxAliensCount - as.length) ∧ ∀ a ∈ new, freshAlien a := by
  induction n with
  | zero => intro i as; exact ⟨[], by simp [spawnLoop], by simp, by simp⟩
  | succ n ih =>
    intro i as
    unfold spawnLoop
    by_cases hlt : as.length < maxAliensCount
    · obtain ⟨new, h1, h2, h3⟩ :=
        ih (i + 1) (as ++ [newAlien ((rnd (i + 1) : Int) % (width - 200) + 100)])
      refine ⟨newAlien ((rnd (i + 1) : Int) % (width - 200) + 100) :: new, ?_, ?_, ?_⟩
      · rw [if_pos hlt, h1]; simp
      · rw [List.length_cons, h2, List.length_append, List.length_singleton]
        simp only [maxAliensCount] at hlt ⊢
        omega
      · intro a ha
        rcases List.mem_cons.mp ha with rfl | ha
        · exact newAlien_fresh _
        · exact h3 a ha
    · refine ⟨[], ?_, ?_, ?_⟩
      · rw [if_neg hlt]; simp
      · simp only [maxAliensCount, List.length_nil] at hlt ⊢
        omega
      · simp

/-- C6: on a tick that is a multiple of 90, with `n ≤ 5` aliens and drawn spawn
count `k = rnd 0 % 2 + 1` (1 or 2), the spawn block appends exactly
`min k (5 - n)` aliens, each with `Y = -50`, health 100, not dying, fade 1.0 and
`100 ≤ X < width - 100`, so that at most 5 aliens exist afterwards; with `n = 4`
and `k = 2` exactly one is appended.  On any other tick nothing is appended. -/
theorem spawn_policy (as : List Alien) (tick : Nat) (rnd : Nat → Nat) (hn : as.length ≤ 5) :
    (tick % 90 = 0 → ∃ new : List Alien,
      spawnPhase tick rnd as = as ++ new ∧
      new.length = min (rnd 0 % 2 + 1) (5 - as.length) ∧
      (∀ a ∈ new, freshAlien a) ∧
      (spawnPhase tick rnd as).length ≤ 5 ∧
      (as.length = 4 → rnd 0 % 2 + 1 = 2 → new.length = 1)) ∧
    (tick % 90 ≠ 0 → spawnPhase tick rnd as = as) := by
  constructor
  · intro ht
    obtain ⟨new, h1, h2, h3⟩ := spawnLoop_spec rnd (rnd 0 % 2 + 1) 0 as
    have h2' : new.length = min (rnd 0 % 2 + 1) (5 - as.length) := h2
    refine ⟨new, ?_, h2', h3, ?_, ?_⟩
    · unfold spawnPhase; rw [if_pos ht, h1]
    · unfold spawnPhase; rw [if_pos ht, h1, List.length_append, h2']; omega
    · intro h4 hk; rw [h2', h4, hk]; rfl
  · intro ht
    unfold spawnPhase; rw [if_neg ht]

theorem spawn_policy_witness :
    ([alienAt 100 0, alienAt 200 0, alienAt 300 0, alienAt 400 0] : List Alien).length ≤ 5 ∧
    (spawnPhase 90 (fun _ => 1) [alienAt 100 0, alienAt 200 0, alienAt 300 0, alienAt 400 0]).length
      = 5 := by
  refine ⟨by decide, ?_⟩
  obtain ⟨new, h1, _, _, _, h5⟩ :=
    (spawn_policy [alienAt 100 0, alienAt 200 0, alienAt 300 0, alienAt 400 0] 90 (fun _ => 1)
      (by decide)).1 (by decide)
  rw [h1, List.length_append, h5 rfl rfl]
  rfl

/-! ## Enemy advance (C10) -/

/-- C10, the code at the failing input: the first alien leaves the screen
(`480 + 1 > height`) and is cut out at index 0, the second one moves to index 0,
the index advances to 1, and the loop ends: the second alien keeps `Y = 100`
instead of moving to 101. -/
theorem advance_skips_neighbour :
    advancePhase [alienAt 100 480, alienAt 200 100] = [alienAt 200 100] ∧
    advancePhase [alienAt 200 100] = [alienAt 200 101] := by
  decide

/-! ## Lists: the element behind a prefix -/

theorem getElem?_prefix_length {α : Type} (pre : List α) (a : α) (post : List α) :
    (pre ++ a :: post)[pre.length]? = some a := by
  induction pre with
  | nil => simp
  | cons b pre ih => simpa using ih

theorem getElem?_length_none {α : Type} (pre : List α) (k : Nat) :
    pre[pre.length + k]? = none := by
  induction pre with
  | nil => rfl
  | cons b pre ih =>
    have : (b :: pre).length + k = (pre.length + k) + 1 := by simp; omega
    rw [this, List.getElem?_cons_succ]; exact ih

theorem set_prefix_length {α : Type} (pre : List α) (a b : α) (post : List α) :
    (pre ++ a :: post).set pre.length b = pre ++ b :: post := by
  induction pre with
  | nil => rfl
  | cons c pre ih => simp

theorem eraseIdx_prefix_length {α : Type} (pre : List α) (a : α) (post : List α) :
    (pre ++ a :: post).eraseIdx pre.length = pre ++ post := by
  induction pre with
  | nil => rfl
  | cons c pre ih => simpa using ih

/-! ## Player against alien (C2) -/

theorem advanceLoop_prefix (f : Nat) : ∀ (pre post : List Alien),
    ∃ R : List Alien, advanceLoop f pre.length (pre ++ post) = pre ++ R := by
  induction f with
  | zero => intro pre post; exact ⟨post, rfl⟩
  | succ f ih =>
    intro pre post
    cases post with
    | nil =>
      refine ⟨[], ?_⟩
      unfold advanceLoop
      have h := getElem?_length_none pre 0
      simp only [Nat.add_zero] at h
      simp [h]
    | cons a rest =>
      unfold advanceLoop
      rw [getElem?_prefix_length]
      dsimp only
      rw [set_prefix_length, eraseIdx_prefix_length]
      split_ifs with hy
      · cases rest with
        | nil =>
          refine ⟨[], ?_⟩
          cases f with
          | zero => simp [advanceLoop]
          | succ f =>
            unfold advanceLoop
            have h := getElem?_length_none pre 1
            rw [List.append_nil, h]
        | cons b rest =>
          obtain ⟨R, hR⟩ := ih (pre ++ [b]) rest
          refine ⟨b :: R, ?_⟩
          simp only [List.length_append, List.length_singleton, List.append_assoc,
            List.singleton_append] at hR
          exact hR
      · obtain ⟨R, hR⟩ := ih (pre ++ [{ a with Y := a.Y + alienSpeen }]) rest
        refine ⟨{ a with Y := a.Y + alienSpeen } :: R, ?_⟩
        simp only [List.length_append, List.length_singleton, List.append_assoc,
          List.singleton_append] at hR
        exact hR

theorem advancePhase_head (a : Alien) (rest : List Alien) (h : a.Y + 1 ≤ height) :
    ∃ R : List Alien, advancePhase (a :: rest) = { a with Y := a.Y + 1 } :: R := by
  unfold advancePhase
  rw [List.length_cons]
  unfold advanceLoop
  have hy : ¬ (a.Y + alienSpeen > height) := by unfold alienSpeen; omega
  simp only [List.getElem?_cons_zero, List.set_cons_zero, hy, if_false]
  obtain ⟨R, hR⟩ := advanceLoop_prefix rest.length [{ a with Y := a.Y + alienSpeen }] rest
  exact ⟨R, hR⟩

theorem collidePhase_first (g : Game) (a : Alien) (rest : List Alien)
    (hal : g.aliens = a :: rest) (hc : isCollision g.player a) :
    collidePhase g = { g with restart := true, isStarted := false, aliens := [] } := by
  unfold collidePhase
  rw [hal, List.length_cons, if_pos (Nat.succ_pos _)]
  unfold collideLoop
  rw [hal]
  simp only [List.getElem?_cons_zero, hc, if_true]
  cases rest.length with
  | zero => rfl
  | succ n => rfl

theorem spawnPhase_head (tick : Nat) (rnd : Nat → Nat) (a : Alien) (rest : List Alien) :
    ∃ R : List Alien, spawnPhase tick rnd (a :: rest) = a :: R := by
  unfold spawnPhase
  split_ifs
  · obtain ⟨new, h, _⟩ := spawnLoop_spec rnd (rnd 0 % 2 + 1) 0 (a :: rest)
    exact ⟨rest ++ new, by rw [h]; rfl⟩
  · exact ⟨rest, rfl⟩

/-- C2, as stated, fails: with the player at `X = 100` and the alien at
`X = 140` on the same `Y`, the player is to the left of the alien by 40, which is
not below 20, so `Surf` reports no collision: the restart flag stays false, the
game stays started and the alien stays in the list. -/
theorem surf_no_collision_counterexample :
    (Surf (startedAt 100 384 [alienAt 140 384] []) 1 (fun _ => 0)).restart = false ∧
    (Surf (startedAt 100 384 [alienAt 140 384] []) 1 (fun _ => 0)).isStarted = true ∧
    (Surf (startedAt 100 384 [alienAt 140 384] []) 1 (fun _ => 0)).aliens
      = [alienAt 140 385] := by
  decide

/-- C2 (amended): with the player at `X = 140` and one alien at `X = 100` on the
same `Y` below `height` (the player to the right of the alien by 40 < 50), one
`Surf` step, on any tick and with any random draws, sets the restart flag,
leaves the started state and empties the alien list; nothing else changes. -/
theorem surf_collision_from_right (g : Game) (tick : Nat) (rnd : Nat → Nat) (a : Alien)
    (hal : g.aliens = [a]) (hpx : g.player.X = 140) (hax : a.X = 100)
    (hy : a.Y = g.player.Y) (hh : a.Y < height) :
    Surf g tick rnd = { g with restart := true, isStarted := false, aliens := [] } := by
  obtain ⟨R1, h1⟩ := spawnPhase_head tick rnd a []
  obtain ⟨R2, h2⟩ := advancePhase_head a R1 (by omega)
  have hc : isCollision g.player { a with Y := a.Y + 1 } := by
    unfold isCollision
    dsimp only
    rw [hpx, hax, hy]
    refine ⟨?_, Or.inl ⟨by omega, by omega⟩⟩
    rw [abs_lt]; constructor <;> omega
  unfold Surf
  dsimp only
  rw [hal, h1, h2]
  rw [collidePhase_first { g with aliens := { a with Y := a.Y + 1 } :: R2 }
    { a with Y := a.Y + 1 } R2 rfl hc]
  unfold missilePass
  simp

theorem surf_collision_from_right_witness :
    (startedAt 140 384 [alienAt 100 384] []).aliens = [alienAt 100 384] ∧
    (startedAt 140 384 [alienAt 100 384] []).player.X = 140 ∧
    (alienAt 100 384).X = 100 ∧
    (alienAt 100 384).Y = (startedAt 140 384 [alienAt 100 384] []).player.Y ∧
    (alienAt 100 384).Y < height ∧
    Surf (startedAt 140 384 [alienAt 100 384] []) 90 (fun _ => 1)
      = { startedAt 140 384 [alienAt 100 384] [] with
          restart := true, isStarted := false, aliens := [] } :=
  ⟨rfl, rfl, rfl, rfl, by decide,
    surf_collision_from_right (startedAt 140 384 [alienAt 100 384] []) 90 (fun _ => 1)
      (alienAt 100 384) rfl rfl rfl rfl (by decide)⟩

/-! ## Fade on every tick (C4) -/

/-- C4, the code at the failing input: a started game with one dying alien, hit
one step earlier (fade `1.0 - 0.05`), and an empty projectile list.  The fade
statement sits inside the block guarded by `len(g.missile) > 0`, so `Surf` moves
the alien down and leaves its fade as it was; with a projectile anywhere on
screen the same step makes the second decrement. -/
theorem fade_stalls_without_projectile :
    Surf (startedAt 300 384 [dyingAt 300 89 (fadeAfter 1)] []) 40 (fun _ => 0)
      = startedAt 300 384 [dyingAt 300 90 (fadeAfter 1)] [] ∧
    Surf (startedAt 300 384 [dyingAt 300 89 (fadeAfter 1)] [{ X := 600, Y := 300 }]) 40
        (fun _ => 0)
      = startedAt 300 384 [dyingAt 300 90 (fadeAfter 2)] [{ X := 600, Y := 300 }] := by
  decide

/-! ## Projectile cap (C9) -/

theorem missileLoop_past_end (step : Int) (f : Nat) (ms : List Stars) (k : Nat) :
    missileLoop step f (ms.length + k) ms = ms := by
  cases f with
  | zero => rfl
  | succ f =>
    unfold missileLoop
    rw [getElem?_length_none]

theorem missileLoop_sweep (step : Int) (f : Nat) : ∀ (pre post : List Stars),
    post.length ≤ f →
    missileLoop step f pre.length (pre ++ post) = pre ++ sweepMissiles step post := by
  induction f with
  | zero =>
    intro pre post h
    have : post = [] := List.length_eq_zero.mp (Nat.le_zero.mp h)
    rw [this]
    rfl
  | succ f ih =>
    intro pre post h
    match post, h with
    | [], _ =>
      have h0 := missileLoop_past_end step (f + 1) pre 0
      simpa [sweepMissiles] using h0
    | [m], _ =>
      unfold missileLoop
      rw [getElem?_prefix_length]
      dsimp only
      rw [set_prefix_length, eraseIdx_prefix_length]
      unfold sweepMissiles
      split_ifs with hy
      · simpa using missileLoop_past_end step f pre 1
      · have h1 := missileLoop_past_end step f (pre ++ [{ m with Y := f32 (m.Y - step) }]) 0
        rw [Nat.add_zero, List.length_append, List.length_singleton] at h1
        exact h1
    | m :: b :: rest, h =>
      unfold missileLoop
      rw [getElem?_prefix_length]
      dsimp only
      rw [set_prefix_length, eraseIdx_prefix_length]
      have hlen : rest.length + 1 ≤ f := by
        simp only [List.length_cons] at h
        omega
      unfold sweepMissiles
      split_ifs with hy
      · have h1 := ih (pre ++ [b]) rest (by omega)
        simp only [List.length_append, List.length_singleton, List.append_assoc,
          List.singleton_append] at h1
        exact h1
      · have h1 := ih (pre ++ [{ m with Y := f32 (m.Y - step) }]) (b :: rest)
          (by simp only [List.length_cons]; omega)
        simp only [List.length_append, List.length_singleton, List.append_assoc,
          List.singleton_append] at h1
        exact h1

theorem movedMissiles_eq (g : Game) :
    movedMissiles g = sweepMissiles (missileStep g) g.missile := by
  unfold movedMissiles
  have h := missileLoop_sweep (missileStep g) g.missile.length [] g.missile (Nat.le_refl _)
  simpa using h

theorem sweepMissiles_origin (step : Int) : ∀ (n : Nat) (ms : List Stars), ms.length ≤ n →
    ∃ sub : List Stars, sub.Sublist ms ∧
      List.Forall₂ (movedFrom step) (sweepMissiles step ms) sub := by
  intro n
  induction n with
  | zero =>
    intro ms h
    have : ms = [] := List.length_eq_zero.mp (Nat.le_zero.mp h)
    rw [this]
    exact ⟨[], List.Sublist.refl _, List.Forall₂.nil⟩
  | succ n ih =>
    intro ms h
    match ms, h with
    | [], _ => exact ⟨[], List.Sublist.refl _, List.Forall₂.nil⟩
    | [m], _ =>
      unfold sweepMissiles
      split_ifs with hy
      · exact ⟨[], List.nil_sublist _, List.Forall₂.nil⟩
      · exact ⟨[m], List.Sublist.refl _,
          List.Forall₂.cons (Or.inr ⟨rfl, not_lt.mp hy⟩) List.Forall₂.nil⟩
    | m :: b :: rest, h =>
      simp only [List.length_cons] at h
      unfold sweepMissiles
      split_ifs with hy
      · obtain ⟨sub, hs, hf⟩ := ih rest (by omega)
        exact ⟨b :: sub, List.Sublist.cons _ (List.Sublist.cons₂ _ hs),
          List.Forall₂.cons (Or.inl rfl) hf⟩
      · obtain ⟨sub, hs, hf⟩ := ih (b :: rest) (by simp only [List.length_cons]; omega)
        exact ⟨m :: sub, List.Sublist.cons₂ _ hs,
          List.Forall₂.cons (Or.inr ⟨rfl, not_lt.mp hy⟩) hf⟩

/-- C9: after the projectile loop and trim of `drawStars` the list has at most 10
entries.  The projectiles that survive the removal loop are exactly
`sweepMissiles` of the original list, where the step is `float32(speed + 1)`:
an entry whose moved `Y` is negative is dropped, the entry behind a dropped one
is kept unmoved, every other entry is kept moved.  The list after `drawStars` is
the last 10 of these survivors, in order (all of them when there are at most
10), and has exactly 10 entries when more than 10 survive.  The survivors come
from a sublist of the original list, in the original order. -/
theorem drawStars_missile_cap (g : Game) :
    (drawStars g).missile.length ≤ 10 ∧
    movedMissiles g = sweepMissiles (missileStep g) g.missile ∧
    (drawStars g).missile = (sweepMissiles (missileStep g) g.missile).drop
      ((sweepMissiles (missileStep g) g.missile).length - 10) ∧
    (10 < (sweepMissiles (missileStep g) g.missile).length →
      (drawStars g).missile.length = 10) ∧
    ((sweepMissiles (missileStep g) g.missile).length ≤ 10 →
      (drawStars g).missile = sweepMissiles (missileStep g) g.missile) ∧
    ∃ sub : List Stars, sub.Sublist g.missile ∧
      List.Forall₂ (movedFrom (missileStep g)) (sweepMissiles (missileStep g) g.missile) sub := by
  have he := movedMissiles_eq g
  refine ⟨?_, he, ?_, ?_, ?_, sweepMissiles_origin _ _ _ (Nat.le_refl _)⟩
  · unfold drawStars
    dsimp only
    split_ifs with h
    · rw [List.length_drop]; omega
    · omega
  · unfold drawStars
    dsimp only
    rw [he]
    split_ifs with h
    · rfl
    · have : (sweepMissiles (missileStep g) g.missile).length - 10 = 0 := by omega
      rw [this, List.drop_zero]
  · intro h
    unfold drawStars
    dsimp only
    rw [he, if_pos h, List.length_drop]
    omega
  · intro h
    unfold drawStars
    dsimp only
    rw [he, if_neg (by omega)]

/-! ## The projectile-vs-alien block -/

theorem hitScan_some (a : Alien) (ms : List Stars) (n j : Nat) (h : hitScan a ms n = some j) :
    j < n ∧ a.dying = false ∧ ∃ m, ms[j]? = some m ∧ inRange m a := by
  induction n with
  | zero => simp [hitScan] at h
  | succ n ih =>
    unfold hitScan at h
    cases hm : ms[n]? with
    | none =>
      rw [hm] at h
      obtain ⟨h1, h2⟩ := ih h
      exact ⟨by omega, h2⟩
    | some m =>
      rw [hm] at h
      dsimp only at h
      split_ifs at h with hc
      · cases h
        exact ⟨by omega, hc.2, m, hm, hc.1⟩
      · obtain ⟨h1, h2⟩ := ih h
        exact ⟨by omega, h2⟩

theorem hitScan_none (a : Alien) (ms : List Stars) (n : Nat) (h : hitScan a ms n = none)
    (j : Nat) (hj : j < n) (m : Stars) (hm : ms[j]? = some m) :
    ¬ (inRange m a ∧ a.dying = false) := by
  induction n with
  | zero => omega
  | succ n ih =>
    unfold hitScan at h
    by_cases hjn : j = n
    · subst hjn
      rw [hm] at h
      dsimp only at h
      split_ifs at h with hc
      exact hc
    · cases hn : ms[n]? with
      | none =>
        rw [hn] at h
        exact ih h (by omega)
      | some m2 =>
        rw [hn] at h
        dsimp only at h
        split_ifs at h with hc
        exact ih h (by omega)

theorem hitScan_above (a : Alien) (ms : List Stars) (n j : Nat) (h : hitScan a ms n = some j)
    (k : Nat) (hjk : j < k) (hk : k < n) (m : Stars) (hm : ms[k]? = some m) :
    ¬ (inRange m a ∧ a.dying = false) := by
  induction n with
  | zero => omega
  | succ n ih =>
    unfold hitScan at h
    cases hn : ms[n]? with
    | none =>
      rw [hn] at h
      by_cases hkn : k = n
      · subst hkn
        rw [hn] at hm
        cases hm
      · exact ih h (by omega)
    | some m2 =>
      rw [hn] at h
      dsimp only at h
      split_ifs at h with hc
      · cases h
        omega
      · by_cases hkn : k = n
        · subst hkn
          rw [hn] at hm
          cases hm
          exact hc
        · exact ih h (by omega)

theorem hitScan_dying (a : Alien) (ms : List Stars) (n : Nat) (h : a.dying = true) :
    hitScan a ms n = none := by
  induction n with
  | zero => rfl
  | succ n ih =>
    unfold hitScan
    cases ms[n]? with
    | none => exact ih
    | some m => simp [h, ih]

theorem hitScan_found (a : Alien) (ms : List Stars) (hd : a.dying = false)
    (hex : ∃ m ∈ ms, inRange m a) : ∃ j, hitScan a ms ms.length = some j := by
  cases hs : hitScan a ms ms.length with
  | some j => exact ⟨j, rfl⟩
  | none =>
    exfalso
    obtain ⟨m, hm, hr⟩ := hex
    obtain ⟨j, hj, hjm⟩ := List.getElem_of_mem hm
    refine hitScan_none a ms ms.length hs j hj m ?_ ⟨hr, hd⟩
    rw [List.getElem?_eq_getElem hj, hjm]

theorem hitAlien_cases (a : Alien) (ms : List Stars) :
    hitAlien a ms = (a, ms) ∨
    (a.dying = false ∧ ∃ j, j < ms.length ∧ (∃ m, ms[j]? = some m ∧ inRange m a) ∧
      hitAlien a ms = (struck a, ms.eraseIdx j)) := by
  unfold hitAlien
  cases hs : hitScan a ms ms.length with
  | none => exact Or.inl rfl
  | some j =>
    obtain ⟨h1, h2, h3⟩ := hitScan_some a ms ms.length j hs
    exact Or.inr ⟨h2, j, h1, h3, rfl⟩

theorem hitAlien_hit (a : Alien) (ms : List Stars) (hd : a.dying = false)
    (hex : ∃ m ∈ ms, inRange m a) :
    ∃ j, j < ms.length ∧ (∃ m, ms[j]? = some m ∧ inRange m a) ∧
      hitAlien a ms = (struck a, ms.eraseIdx j) := by
  obtain ⟨j, hj⟩ := hitScan_found a ms hd hex
  obtain ⟨h1, _, h3⟩ := hitScan_some a ms ms.length j hj
  refine ⟨j, h1, h3, ?_⟩
  unfold hitAlien
  rw [hj]
  rfl

theorem hitAlien_hit_last (a : Alien) (ms : List Stars) (hd : a.dying = false)
    (hex : ∃ m ∈ ms, inRange m a) :
    ∃ j, j < ms.length ∧ (∃ m, ms[j]? = some m ∧ inRange m a) ∧
      (∀ k m, j < k → ms[k]? = some m → ¬ inRange m a) ∧
      hitAlien a ms = (struck a, ms.eraseIdx j) := by
  obtain ⟨j, hj⟩ := hitScan_found a ms hd hex
  obtain ⟨h1, _, h3⟩ := hitScan_some a ms ms.length j hj
  refine ⟨j, h1, h3, ?_, ?_⟩
  · intro k m hjk hm hr
    have hk : k < ms.length := by
      by_contra hge
      rw [List.getElem?_eq_none (by omega)] at hm
      cases hm
    exact hitScan_above a ms ms.length j hj k hjk hk m hm ⟨hr, hd⟩
  · unfold hitAlien
    rw [hj]
    rfl

theorem hitAlien_dying (a : Alien) (ms : List Stars) (hd : a.dying = true) :
    hitAlien a ms = (a, ms) := by
  unfold hitAlien
  rw [hitScan_dying a ms ms.length hd]

theorem fadeAlien_dying (a : Alien) : (fadeAlien a).dying = a.dying := by
  unfold fadeAlien
  split_ifs <;> rfl

theorem fadeAlien_position (a : Alien) :
    (fadeAlien a).X = a.X ∧ (fadeAlien a).Y = a.Y ∧ (fadeAlien a).health = a.health := by
  unfold fadeAlien
  split_ifs <;> exact ⟨rfl, rfl, rfl⟩

theorem struck_not_faded (a : Alien) : ¬ faded (fadeAlien (struck a)) := by
  unfold faded fadeAlien struck
  simp only [if_true, true_and, not_le]
  decide

theorem hitAlien_dying_mono (a : Alien) (ms : List Stars) (hd : a.dying = true) :
    (fadeAlien (hitAlien a ms).1).dying = true := by
  rw [hitAlien_dying a ms hd, fadeAlien_dying]
  exact hd

theorem hitAlien_length (a : Alien) (ms : List Stars) :
    (hitAlien a ms).2.length +
      (if a.dying = false ∧ (fadeAlien (hitAlien a ms).1).dying = true then 1 else 0)
      = ms.length := by
  rcases hitAlien_cases a ms with h | ⟨hd, j, hj, _, h⟩
  · rw [h, fadeAlien_dying]
    dsimp only
    have : ¬ (a.dying = false ∧ a.dying = true) := by
      intro ⟨h1, h2⟩; rw [h1] at h2; cases h2
    rw [if_neg this]
    rfl
  · rw [h, fadeAlien_dying]
    dsimp only
    rw [if_pos ⟨hd, rfl⟩, List.length_eraseIdx, if_pos hj]
    omega

theorem hitAlien_sublist (a : Alien) (ms : List Stars) : (hitAlien a ms).2.Sublist ms := by
  rcases hitAlien_cases a ms with h | ⟨_, j, _, _, h⟩
  · rw [h]
  · rw [h]; exact List.eraseIdx_sublist ms j

theorem passFrom_cons (a : Alien) (rest : List Alien) (ms : List Stars) :
    passFrom (a :: rest) ms =
      (fadeAlien (hitAlien a (passFrom rest ms).2).1 :: (passFrom rest ms).1,
        (hitAlien a (passFrom rest ms).2).2) := rfl

theorem passFrom_append (xs ys : List Alien) (ms : List Stars) :
    passFrom (xs ++ ys) ms =
      ((passFrom xs (passFrom ys ms).2).1 ++ (passFrom ys ms).1,
        (passFrom xs (passFrom ys ms).2).2) := by
  induction xs with
  | nil => rfl
  | cons x xs ih =>
    rw [List.cons_append, passFrom_cons, ih, passFrom_cons]
    rfl

theorem alienStep_at (g : Game) (pre post : List Alien) (a : Alien)
    (hal : g.aliens = pre ++ a :: post) :
    alienStep pre.length g =
      if faded (fadeAlien (hitAlien a g.missile).1) then
        { g with aliens := pre ++ post, missile := (hitAlien a g.missile).2,
                 player := { g.player with score := wrap64 (g.player.score + 1) } }
      else
        { g with aliens := pre ++ fadeAlien (hitAlien a g.missile).1 :: post,
                 missile := (hitAlien a g.missile).2 } := by
  unfold alienStep
  rw [hal, getElem?_prefix_length]
  dsimp only
  rw [set_prefix_length, eraseIdx_prefix_length]

theorem bump_succ (n : Nat) (s : Int) : bump (n + 1) s = bump n (wrap64 (s + 1)) := rfl

theorem bump_small (n : Nat) : ∀ (s : Int), -9223372036854775808 ≤ s →
    s + n < 9223372036854775808 → bump n s = s + n := by
  induction n with
  | zero => intro s _ _; simp [bump]
  | succ n ih =>
    intro s h1 h2
    rw [bump_succ, wrap64_small (s + 1) (by omega) (by push_cast at h2; omega),
      ih (s + 1) (by omega) (by push_cast at h2; omega)]
    push_cast
    omega

theorem alienLoop_spec (pre : List Alien) : ∀ (post : List Alien) (g : Game),
    g.aliens = pre ++ post →
    alienLoop pre.length g =
      { g with
        aliens := (passFrom pre g.missile).1.filter (fun p => !decide (faded p)) ++ post,
        missile := (passFrom pre g.missile).2,
        player := { g.player with
          score := bump ((passFrom pre g.missile).1.countP (fun p => decide (faded p)))
            g.player.score } } := by
  induction pre using List.reverseRecOn with
  | nil =>
    intro post g hal
    cases g
    simp only [List.nil_append] at hal
    simp [alienLoop, passFrom, hal, bump]
  | append_singleton pre a ih =>
    intro post g hal
    rw [List.length_append, List.length_singleton]
    unfold alienLoop
    rw [List.append_assoc, List.singleton_append] at hal
    rw [alienStep_at g pre post a hal, passFrom_append]
    have h1 : passFrom [a] g.missile
        = ([fadeAlien (hitAlien a g.missile).1], (hitAlien a g.missile).2) := rfl
    rw [h1]
    dsimp only
    by_cases hf : faded (fadeAlien (hitAlien a g.missile).1)
    · rw [if_pos hf, ih post _ rfl]
      simp only [List.filter_append, List.countP_append, List.filter_cons, List.filter_nil,
        List.countP_cons, List.countP_nil, hf, decide_True, Bool.not_true, if_true,
        List.append_nil, Nat.zero_add, Bool.false_eq_true, if_false, bump_succ]
    · rw [if_neg hf, ih (fadeAlien (hitAlien a g.missile).1 :: post) _ rfl]
      simp only [List.filter_append, List.countP_append, List.filter_cons, List.filter_nil,
        List.countP_cons, List.countP_nil, hf, decide_False, Bool.not_false, if_true,
        List.append_assoc, List.singleton_append, Nat.add_zero, Bool.false_eq_true, if_false]

theorem processedFrom_sameEnemy (a p : Alien) (h : processedFrom a p) : sameEnemy a p := by
  obtain ⟨ms, rfl⟩ := h
  obtain ⟨hx, hy, hh⟩ := fadeAlien_position (hitAlien a ms).1
  unfold sameEnemy
  rw [hx, hy, hh, fadeAlien_dying]
  rcases hitAlien_cases a ms with h | ⟨hd, j, _, _, h⟩
  · rw [h]
    exact ⟨rfl, rfl, fun h => h, fun h1 h2 => by rw [h1] at h2; cases h2⟩
  · rw [h]
    exact ⟨rfl, rfl, fun _ => rfl, fun _ _ => rfl⟩

theorem sameEnemy_refl (l : List Alien) : List.Forall₂ sameEnemy l l :=
  List.forall₂_same.mpr fun _ _ =>
    ⟨rfl, rfl, fun h => h, fun h1 h2 => by rw [h1] at h2; cases h2⟩

theorem passFrom_processed (as : List Alien) (ms : List Stars) :
    List.Forall₂ processedFrom as (passFrom as ms).1 := by
  induction as with
  | nil => exact List.Forall₂.nil
  | cons a rest ih =>
    rw [passFrom_cons]
    exact List.Forall₂.cons ⟨_, rfl⟩ ih

theorem passFrom_sublist (as : List Alien) (ms : List Stars) :
    (passFrom as ms).2.Sublist ms := by
  induction as with
  | nil => exact List.Sublist.refl _
  | cons a rest ih =>
    rw [passFrom_cons]
    exact (hitAlien_sublist a _).trans ih

theorem passFrom_count (as : List Alien) (ms : List Stars) :
    (passFrom as ms).2.length +
      (List.zip as (passFrom as ms).1).countP (fun x => newlyDying x.1 x.2) = ms.length := by
  induction as with
  | nil => rfl
  | cons a rest ih =>
    rw [passFrom_cons]
    dsimp only
    rw [List.zip_cons_cons, List.countP_cons]
    have h := hitAlien_length a (passFrom rest ms).2
    have hb : (newlyDying a (fadeAlien (hitAlien a (passFrom rest ms).2).1) = true) ↔
        (a.dying = false ∧ (fadeAlien (hitAlien a (passFrom rest ms).2).1).dying = true) := by
      unfold newlyDying
      simp
    by_cases hn : a.dying = false ∧ (fadeAlien (hitAlien a (passFrom rest ms).2).1).dying = true
    · rw [if_pos hn] at h
      rw [if_pos (hb.mpr hn)]
      omega
    · rw [if_neg hn] at h
      rw [if_neg (fun hh => hn (hb.mp hh))]
      omega

theorem missilePass_runs (g : Game) (h : passRuns g) :
    missilePass g =
      { g with
        aliens := (passFrom g.aliens g.missile).1.filter (fun p => !decide (faded p)),
        missile := (passFrom g.aliens g.missile).2,
        player := { g.player with
          score := bump ((passFrom g.aliens g.missile).1.countP (fun p => decide (faded p)))
            g.player.score } } := by
  unfold passRuns at h
  unfold missilePass
  rw [if_pos h, alienLoop_spec g.aliens [] g (List.append_nil _).symm, List.append_nil]

theorem missilePass_idle (g : Game) (h : ¬ passRuns g) : missilePass g = g := by
  unfold passRuns at h
  unfold missilePass
  rw [if_neg h]

theorem collideLoop_player (f : Nat) : ∀ (i : Nat) (g : Game),
    (collideLoop f i g).player = g.player := by
  induction f with
  | zero => intro i g; rfl
  | succ f ih =>
    intro i g
    unfold collideLoop
    cases g.aliens[i]? with
    | none => rfl
    | some a =>
      dsimp only
      split_ifs
      · rw [ih]; rfl
      · rw [ih]

theorem beforeMissilePass_player (g : Game) (tick : Nat) (rnd : Nat → Nat) :
    (beforeMissilePass g tick rnd).player = g.player := by
  unfold beforeMissilePass collidePhase
  split_ifs
  · rw [collideLoop_player]
  · rfl

/-! ## Projectile hits (C3) -/

theorem hitAlien_miss (a : Alien) (ms : List Stars)
    (hn : ¬ ∃ m ∈ ms, inRange m a) : hitAlien a ms = (a, ms) := by
  rcases hitAlien_cases a ms with h | ⟨_, j, _, ⟨m, hm, hr⟩, _⟩
  · exact h
  · exact absurd ⟨m, List.getElem?_mem hm, hr⟩ hn

theorem fadeAlien_live (a : Alien) (hd : a.dying = false) : fadeAlien a = a := by
  unfold fadeAlien
  rw [hd]
  rfl

theorem surviving_live (a : Alien) (hd : a.dying = false) : surviving [a] = [a] := by
  unfold surviving faded
  simp [hd]

theorem surviving_struck (a : Alien) :
    surviving [{ struck a with fade := fadeAfter 1 }] = [{ struck a with fade := fadeAfter 1 }] := by
  have h := struck_not_faded a
  rw [show fadeAlien (struck a) = { struck a with fade := fadeAfter 1 } from rfl] at h
  unfold surviving
  simp [h]

theorem missilePass_split (g : Game) (pre : List Alien) (a : Alien) (post : List Alien)
    (hr : passRuns g) (hal : g.aliens = pre ++ a :: post) :
    (missilePass g).aliens =
      surviving (passFrom pre (hitAlien a (pending post g.missile)).2).1 ++
        (surviving [fadeAlien (hitAlien a (pending post g.missile)).1] ++
          surviving (passFrom post g.missile).1) ∧
    (missilePass g).missile = pending pre (hitAlien a (pending post g.missile)).2 := by
  rw [missilePass_runs g hr, hal, passFrom_append, passFrom_cons]
  unfold surviving pending
  dsimp only
  refine ⟨?_, rfl⟩
  rw [List.filter_append, List.filter_cons, List.filter_cons, List.filter_nil]
  split_ifs <;> rfl

/-- C3: the projectile-vs-alien block of `Surf`, for every alien list and
projectile list.  When its guard fails it changes nothing.  When it runs, the
aliens it leaves are the processed aliens `passFrom` without the faded ones and
the projectiles it leaves are those `passFrom` leaves, a sublist of the input;
the processed aliens are the input aliens in place, and the number of
projectiles removed equals the number of aliens whose dying flag changed from
false to true.  For each alien `a` of the list, with `pending` the projectiles
not yet consumed at its turn: if `a` is not dying and some pending projectile is
in range (`|dx| < 24`, `|dy| < 24`), then `a` is left in the list dying, with
health 0, and exactly one pending projectile, the last one in range, is erased
for it; if
`a` is not dying and none is in range, `a` and the pending projectiles are left
as they are; if `a` is dying it consumes no projectile and stays dying. -/
theorem missile_pass_hits (g : Game) :
    (¬ passRuns g → missilePass g = g) ∧
    (passRuns g →
      (missilePass g).aliens = surviving (passFrom g.aliens g.missile).1 ∧
      (missilePass g).missile = (passFrom g.aliens g.missile).2 ∧
      List.Forall₂ sameEnemy g.aliens (passFrom g.aliens g.missile).1 ∧
      (missilePass g).missile.length +
        (List.zip g.aliens (passFrom g.aliens g.missile).1).countP
          (fun x => newlyDying x.1 x.2) = g.missile.length) ∧
    (missilePass g).missile.Sublist g.missile ∧
    (∀ (pre : List Alien) (a : Alien) (post : List Alien),
      passRuns g → g.aliens = pre ++ a :: post →
      (a.dying = false → (∃ m ∈ pending post g.missile, inRange m a) →
        ∃ j, j < (pending post g.missile).length ∧
          (∃ m, (pending post g.missile)[j]? = some m ∧ inRange m a) ∧
          (∀ k m, j < k → (pending post g.missile)[k]? = some m → ¬ inRange m a) ∧
          (missilePass g).aliens =
            surviving (passFrom pre ((pending post g.missile).eraseIdx j)).1 ++
              { struck a with fade := fadeAfter 1 } :: surviving (passFrom post g.missile).1 ∧
          (missilePass g).missile = pending pre ((pending post g.missile).eraseIdx j) ∧
          ((pending post g.missile).eraseIdx j).length + 1 = (pending post g.missile).length) ∧
      (a.dying = false → (¬ ∃ m ∈ pending post g.missile, inRange m a) →
        (missilePass g).aliens =
          surviving (passFrom pre (pending post g.missile)).1 ++
            a :: surviving (passFrom post g.missile).1 ∧
        (missilePass g).missile = pending pre (pending post g.missile)) ∧
      (a.dying = true →
        (fadeAlien a).dying = true ∧
        (missilePass g).aliens =
          surviving (passFrom pre (pending post g.missile)).1 ++
            (surviving [fadeAlien a] ++ surviving (passFrom post g.missile).1) ∧
        (missilePass g).missile = pending pre (pending post g.missile))) := by
  refine ⟨missilePass_idle g, ?_, ?_, ?_⟩
  · intro hr
    rw [missilePass_runs g hr]
    exact ⟨rfl, rfl, (passFrom_processed g.aliens g.missile).imp processedFrom_sameEnemy,
      passFrom_count _ _⟩
  · by_cases hr : passRuns g
    · rw [missilePass_runs g hr]
      exact passFrom_sublist _ _
    · rw [missilePass_idle g hr]
  · intro pre a post hr hal
    obtain ⟨hA, hM⟩ := missilePass_split g pre a post hr hal
    refine ⟨?_, ?_, ?_⟩
    · intro hd hex
      obtain ⟨j, hj, hm, hlast, h⟩ := hitAlien_hit_last a (pending post g.missile) hd hex
      rw [h] at hA hM
      refine ⟨j, hj, hm, hlast, ?_, hM, ?_⟩
      · rw [hA]
        dsimp only
        rw [show fadeAlien (struck a) = { struck a with fade := fadeAfter 1 } from rfl,
          surviving_struck]
        rfl
      · rw [List.length_eraseIdx, if_pos hj]
        omega
    · intro hd hn
      rw [hitAlien_miss a _ hn] at hA hM
      refine ⟨?_, hM⟩
      rw [hA]
      dsimp only
      rw [fadeAlien_live a hd, surviving_live a hd]
      rfl
    · intro hd
      rw [hitAlien_dying a _ hd] at hA hM
      refine ⟨?_, hA, hM⟩
      rw [fadeAlien_dying]
      exact hd

/-! ## Score accounting (C5) -/

/-- C5: for a game whose score is a Go `int` that this step cannot overflow
(`-2^63 ≤ score` and `score + n < 2^63`, with `n` the number of aliens entering
the last block).  `Surf` is its first three blocks followed by the
projectile-vs-alien block.  The first three (spawn, advance with the removal of
aliens below the screen, player collision) leave the score as it was.  When the
last block runs, the aliens after `Surf` are the processed aliens `ps` without
those with `dying` and `fade ≤ 0`, and the score is the score before plus the
number of those; when it does not run, nothing changes.  In both cases the score
grows by the number of aliens the last block removed, and never decreases. -/
theorem surf_score (g : Game) (tick : Nat) (rnd : Nat → Nat)
    (h1 : -9223372036854775808 ≤ g.player.score)
    (h2 : g.player.score + ((beforeMissilePass g tick rnd).aliens.length : Int)
      < 9223372036854775808) :
    Surf g tick rnd = missilePass (beforeMissilePass g tick rnd) ∧
    (beforeMissilePass g tick rnd).player.score = g.player.score ∧
    (passRuns (beforeMissilePass g tick rnd) →
      ∃ ps : List Alien,
        List.Forall₂ processedFrom (beforeMissilePass g tick rnd).aliens ps ∧
        (Surf g tick rnd).aliens = ps.filter (fun p => !decide (faded p)) ∧
        (Surf g tick rnd).player.score
          = g.player.score + (ps.countP (fun p => decide (faded p)) : Nat)) ∧
    (¬ passRuns (beforeMissilePass g tick rnd) →
      Surf g tick rnd = beforeMissilePass g tick rnd) ∧
    (Surf g tick rnd).player.score = g.player.score +
      (((beforeMissilePass g tick rnd).aliens.length - (Surf g tick rnd).aliens.length : Nat)
        : Int) ∧
    g.player.score ≤ (Surf g tick rnd).player.score := by
  have hS : Surf g tick rnd = missilePass (beforeMissilePass g tick rnd) := rfl
  have hP := beforeMissilePass_player g tick rnd
  have hlen : ∀ ps : List Alien,
      ps.length - (ps.filter (fun p => !decide (faded p))).length
        = ps.countP (fun p => decide (faded p)) := by
    intro ps
    have h : (ps.filter (fun p => !decide (faded p))).length
        + ps.countP (fun p => decide (faded p)) = ps.length := by
      induction ps with
      | nil => rfl
      | cons p ps ih =>
        by_cases hf : faded p
        · simp only [List.filter_cons, List.countP_cons, hf, decide_True, Bool.not_true,
            Bool.false_eq_true, if_false, if_true, List.length_cons]
          omega
        · simp only [List.filter_cons, List.countP_cons, hf, decide_False, Bool.not_false,
            Bool.false_eq_true, if_false, if_true, List.length_cons]
          omega
    omega
  have hcnt : (passFrom (beforeMissilePass g tick rnd).aliens
      (beforeMissilePass g tick rnd).missile).1.countP (fun p => decide (faded p))
        ≤ (beforeMissilePass g tick rnd).aliens.length := by
    rw [(passFrom_processed (beforeMissilePass g tick rnd).aliens
      (beforeMissilePass g tick rnd).missile).length_eq]
    exact List.countP_le_length _
  have hb := bump_small ((passFrom (beforeMissilePass g tick rnd).aliens
      (beforeMissilePass g tick rnd).missile).1.countP (fun p => decide (faded p)))
      g.player.score h1 (by omega)
  refine ⟨hS, by rw [hP], ?_, ?_, ?_, ?_⟩
  · intro hr
    refine ⟨(passFrom (beforeMissilePass g tick rnd).aliens
      (beforeMissilePass g tick rnd).missile).1, passFrom_processed _ _, ?_, ?_⟩
    · rw [hS, missilePass_runs _ hr]
    · rw [hS, missilePass_runs _ hr, hP]
      exact hb
  · intro hr
    rw [hS, missilePass_idle _ hr]
  · by_cases hr : passRuns (beforeMissilePass g tick rnd)
    · rw [hS, missilePass_runs _ hr]
      dsimp only
      rw [(passFrom_processed (beforeMissilePass g tick rnd).aliens
        (beforeMissilePass g tick rnd).missile).length_eq, hlen, hP]
      exact hb
    · rw [hS, missilePass_idle _ hr, hP]
      simp
  · by_cases hr : passRuns (beforeMissilePass g tick rnd)
    · rw [hS, missilePass_runs _ hr]
      dsimp only
      rw [hP, hb]
      omega
    · rw [hS, missilePass_idle _ hr, hP]

theorem surf_score_witness :
    (-9223372036854775808 : Int)
      ≤ (startedAt 300 384 [dyingAt 300 107 (fadeAfter 19)] [{ X := 300, Y := 111 }]).player.score ∧
    (startedAt 300 384 [dyingAt 300 107 (fadeAfter 19)] [{ X := 300, Y := 111 }]).player.score
      + ((beforeMissilePass
          (startedAt 300 384 [dyingAt 300 107 (fadeAfter 19)] [{ X := 300, Y := 111 }])
          58 (fun _ => 0)).aliens.length : Int) < 9223372036854775808 ∧
    (Surf (startedAt 300 384 [dyingAt 300 107 (fadeAfter 19)] [{ X := 300, Y := 111 }])
      58 (fun _ => 0)).player.score = 1 := by
  refine ⟨by decide, by decide, ?_⟩
  have h := (surf_score
    (startedAt 300 384 [dyingAt 300 107 (fadeAfter 19)] [{ X := 300, Y := 111 }])
    58 (fun _ => 0) (by decide) (by decide)).2.2.2.2.1
  rw [h]
  decide

/-! ## Death timing (C8) -/

theorem fadeAfter_positive (n : Nat) (h : n < 20) : 0 < (fadeAfter n).units := by
  have hall : ∀ k, k < 20 → 0 < (fadeAfter k).units := by decide
  exact hall n h

theorem fadeAlien_after (a : Alien) (n : Nat) (hd : a.dying = true)
    (hf : a.fade = fadeAfter n) : fadeAlien a = { a with fade := fadeAfter (n + 1) } := by
  unfold fadeAlien
  rw [if_pos hd, hf]
  rfl

theorem surviving_fading (a : Alien) (n : Nat) (h : n < 20) :
    surviving [{ a with fade := fadeAfter n }] = [{ a with fade := fadeAfter n }] := by
  have hp := fadeAfter_positive n h
  unfold surviving faded
  simp
  exact Or.inr hp

theorem surviving_faded (a : Alien) (hd : a.dying = true) :
    surviving [{ a with fade := fadeAfter 20 }] = [] := by
  have h20 : (fadeAfter 20).units ≤ 0 := by decide
  unfold surviving faded
  simp [hd, h20]

/-- C8, as stated, fails.  In the scenario the alien is untouched after 38 frames
and dying after 39, with fade already at `1.0 - 0.05`.  With the one projectile
consumed, the alien is still in the list 20 frames later, its fade unchanged;
with a second projectile in flight it is removed 19 frames after the hit, not
20. -/
theorem death_scenario_counterexample :
    (frames (fun _ => 0) 38 1 deathScenario).aliens = [alienAt 300 88] ∧
    (frames (fun _ => 0) 39 1 deathScenario).aliens = [dyingAt 300 89 (fadeAfter 1)] ∧
    (frames (fun _ => 0) (39 + 20) 1 deathScenario).aliens
      = [dyingAt 300 109 (fadeAfter 1)] ∧
    (frames (fun _ => 0) 20 20 deathScenarioSecondShot).aliens
      = [dyingAt 300 89 (fadeAfter 1)] ∧
    (frames (fun _ => 0) (20 + 19) 20 deathScenarioSecondShot).aliens = [] := by
  decide

/-- C8 (amended).  `Surf` ends with its projectile-vs-alien block, entered in
the state left by the spawn, advance and player-collision blocks.  Whenever that
block runs (the state `b` it is entered in has an alien and a projectile): an
alien `a` of `b` that is not dying and has a pending projectile in range is left
in the list dying, with health 0 and the fade after one decrement; an alien of
`b` that is dying with the fade after `n` decrements is left in the list with the
fade after `n + 1` decrements when `n + 1 < 20`, and is cut out of the list when
`n + 1 = 20`.  In binary32 the fade is positive after fewer than 20 decrements
and `-42 * 2^-28` after 20.  In the scenario with a second projectile fired after
19 frames, the alien is untouched after 38 frames, dying from frame 39 on with
the fade after `k + 1` decrements at frame `39 + k` for every `k < 19`, and
removed, with the score at 1, at frame `39 + 19`. -/
theorem fade_timing_after_hit :
    (∀ (g : Game) (tick : Nat) (rnd : Nat → Nat),
      Surf g tick rnd = missilePass (beforeMissilePass g tick rnd)) ∧
    (∀ (b : Game) (pre : List Alien) (a : Alien) (post : List Alien),
      passRuns b → b.aliens = pre ++ a :: post → a.dying = false →
      (∃ m ∈ pending post b.missile, inRange m a) →
      ∃ front : List Alien, (missilePass b).aliens =
        front ++ { struck a with fade := fadeAfter 1 } :: surviving (passFrom post b.missile).1) ∧
    (∀ (b : Game) (pre : List Alien) (a : Alien) (post : List Alien) (n : Nat),
      passRuns b → b.aliens = pre ++ a :: post → a.dying = true → a.fade = fadeAfter n →
      (n + 1 < 20 → (missilePass b).aliens =
        surviving (passFrom pre (pending post b.missile)).1 ++
          { a with fade := fadeAfter (n + 1) } :: surviving (passFrom post b.missile).1) ∧
      (n + 1 = 20 → (missilePass b).aliens =
        surviving (passFrom pre (pending post b.missile)).1 ++
          surviving (passFrom post b.missile).1)) ∧
    (∀ n, n < 20 → 0 < (fadeAfter n).units) ∧
    fadeAfter 20 = ⟨-42 * 2 ^ 121⟩ ∧
    (frames (fun _ => 0) 19 20 deathScenarioSecondShot).aliens = [alienAt 300 88] ∧
    (∀ k, k < 19 → (frames (fun _ => 0) (20 + k) 20 deathScenarioSecondShot).aliens
      = [dyingAt 300 (89 + k) (fadeAfter (k + 1))]) ∧
    (frames (fun _ => 0) (20 + 19) 20 deathScenarioSecondShot).aliens = [] ∧
    (frames (fun _ => 0) (20 + 19) 20 deathScenarioSecondShot).player.score = 1 := by
  refine ⟨fun _ _ _ => rfl, ?_, ?_, fadeAfter_positive, by decide, by decide, by decide,
    by decide, by decide⟩
  · intro b pre a post hr hal hd hex
    obtain ⟨hA, _⟩ := missilePass_split b pre a post hr hal
    obtain ⟨j, _, _, h⟩ := hitAlien_hit a (pending post b.missile) hd hex
    rw [h] at hA
    refine ⟨surviving (passFrom pre ((pending post b.missile).eraseIdx j)).1, ?_⟩
    rw [hA]
    dsimp only
    rw [show fadeAlien (struck a) = { struck a with fade := fadeAfter 1 } from rfl,
      surviving_struck]
    rfl
  · intro b pre a post n hr hal hd hf
    obtain ⟨hA, _⟩ := missilePass_split b pre a post hr hal
    rw [hitAlien_dying a _ hd] at hA
    dsimp only at hA
    rw [fadeAlien_after a n hd hf] at hA
    constructor
    · intro hn
      rw [hA, surviving_fading a (n + 1) hn]
      rfl
    · intro hn
      rw [hA, hn, surviving_faded a hd]
      rfl

end SpaceInvaders
